import Mathlib

/-!
Verification of the echonext core (src/echonext.go): the schema-derivation
engine (`generateSchema`, lines 628-749), the request pipeline produced by
`createEchoHandler` (lines 261-349), and route registration (`registerRoute`,
lines 209-258).  Go types are embedded shallowly: a reflected Go type becomes
the inductive `Typ` (struct fields as the chained inductive `Fields`), an
OpenAPI schema becomes `Schema`, runtime values become `Value`, machine
integers stay in `Int`/`Nat` with explicit wrap where the source converts,
and fallible operations return `Except`/`Option`.
-/

namespace EchoNext

/-! ## String helpers mirroring the Go standard library -/

/-- `pat` is a prefix of `s` (on character lists). -/
def listHasPre : List Char → List Char → Bool
  | [], _ => true
  | _ :: _, [] => false
  | p :: ps, x :: xs => p == x && listHasPre ps xs

/-- `pat` occurs inside `s` (on character lists). -/
def listHasInfix (pat : List Char) : List Char → Bool
  | [] => listHasPre pat []
  | x :: xs => listHasPre pat (x :: xs) || listHasInfix pat xs

/-- Go `strings.Contains(s, pat)`: `pat` occurs as a substring of `s`. -/
def strContains (s pat : String) : Bool :=
  listHasInfix pat.toList s.toList

/-- Go `strings.HasPrefix(s, pre)`. -/
def hasPre (s pre : String) : Bool :=
  listHasPre pre.toList s.toList

/-- Go `strings.TrimPrefix(s, pre)`: drop `pre` when `s` starts with it. -/
def trimPre (s pre : String) : String :=
  if hasPre s pre then .mk (s.toList.drop pre.toList.length) else s

/-- Go `strings.Split` with a one-character separator (the source only
splits on `","` and `" "`). -/
def splitChar (sep : Char) : List Char → List (List Char)
  | [] => [[]]
  | c :: cs =>
      if c == sep then [] :: splitChar sep cs
      else
        match splitChar sep cs with
        | [] => [[c]]
        | g :: gs => (c :: g) :: gs

/-- `strings.Split(s, sep)` for a one-character separator, on `String`. -/
def splitS (s : String) (sep : Char) : List String :=
  (splitChar sep s.toList).map String.mk

/-- Digits of a decimal numeral to a `Nat` (helper for the strconv models). -/
def natOfDigits (cs : List Char) : Nat :=
  cs.foldl (fun a c => a * 10 + (c.toNat - 48)) 0

/-- All-digit non-empty run parsed to a `Nat`, else `none`. -/
def parseDigits : List Char → Option Nat
  | [] => none
  | cs => if cs.all Char.isDigit then some (natOfDigits cs) else none

/-- Model of Go `strconv.Atoi`: optional sign then one or more digits.
The int64 overflow error of the source library is not modelled (the values
appearing in validate tags are small). -/
def atoi? (s : String) : Option Int :=
  match s.toList with
  | '+' :: rest => (parseDigits rest).map Int.ofNat
  | '-' :: rest => (parseDigits rest).map (fun n => -(n : Int))
  | cs => (parseDigits cs).map Int.ofNat

/-- 10^e for an integer exponent, as a rational. -/
def pow10 (e : Int) : ℚ :=
  if 0 ≤ e then ((10 : ℚ) ^ e.toNat) else ((10 : ℚ) ^ (-e).toNat)⁻¹

/-- Model of Go `strconv.ParseFloat` on the decimal grammar
`[+|-] digits [. digits] [(e|E) [+|-] digits]` with at least one digit in
the mantissa.  The value is kept exact in `ℚ` (the binary rounding of the
source library does not affect any claim); the `inf`/`nan`/hex spellings
accepted by the library are outside the model. -/
def parseFloat? (s : String) : Option ℚ :=
  let cs := s.toList
  let sgncs : ℚ × List Char :=
    match cs with
    | '+' :: r => (1, r)
    | '-' :: r => (-1, r)
    | r => (1, r)
  let mant := sgncs.2.takeWhile (fun c => !(c == 'e' || c == 'E'))
  let expRest := sgncs.2.dropWhile (fun c => !(c == 'e' || c == 'E'))
  let ip := mant.takeWhile (fun c => !(c == '.'))
  let dotRest := mant.dropWhile (fun c => !(c == '.'))
  let fpOk : Bool × List Char :=
    match dotRest with
    | [] => (true, [])
    | _ :: fp => (fp.all Char.isDigit, fp)
  let expOk : Bool × Int :=
    match expRest with
    | [] => (true, 0)
    | _ :: '+' :: ds => (decide (ds ≠ []) && ds.all Char.isDigit, (natOfDigits ds : Int))
    | _ :: '-' :: ds => (decide (ds ≠ []) && ds.all Char.isDigit, -(natOfDigits ds : Int))
    | _ :: ds => (decide (ds ≠ []) && ds.all Char.isDigit, (natOfDigits ds : Int))
  if ip.all Char.isDigit && fpOk.1 && expOk.1 && decide (ip ≠ [] ∨ fpOk.2 ≠ []) then
    some (sgncs.1 * ((natOfDigits ip : ℚ) +
      (natOfDigits fpOk.2 : ℚ) / ((10 : ℚ) ^ fpOk.2.length)) * pow10 expOk.2)
  else none

/-- Model of Go `strconv.ParseBool`. -/
def parseBool? (s : String) : Option Bool :=
  if s = "1" || s = "t" || s = "T" || s = "true" || s = "TRUE" || s = "True" then some true
  else if s = "0" || s = "f" || s = "F" || s = "false" || s = "FALSE" || s = "False" then some false
  else none

/-! ## The data model: Go struct types with their tags -/

/-- The struct tags the source reads from a field (`json`, `validate`,
`example`, `query`, `param`); `none` models an absent tag, for which Go's
`Tag.Get` returns the empty string. -/
structure Tags where
  json : Option String := none
  validate : Option String := none
  exampleV : Option String := none
  query : Option String := none
  param : Option String := none
  deriving Repr, DecidableEq

mutual
/-- A reflected Go type as classified by `generateSchema`'s kind switch:
string, ints (Int/Int32/Int64), floats, bool, slice, map, `time.Time`,
other structs, pointer, and the default bucket for every other kind. -/
inductive Typ where
  | tString
  | tInt
  | tFloat
  | tBool
  | tTime
  | tOther
  | tSlice (elem : Typ)
  | tMap (elem : Typ)
  | tPtr (elem : Typ)
  | tStruct (fields : Fields)

/-- The ordered field list of a struct type: Go field name, tags, type. -/
inductive Fields where
  | nil
  | cons (fname : String) (tags : Tags) (ty : Typ) (rest : Fields)
end

/-- The Go field names of a struct, in declaration order. -/
def Fields.names : Fields → List String
  | .nil => []
  | .cons fname _ _ rest => fname :: rest.names

/-- The field entries as a plain list, for membership statements. -/
def Fields.toList : Fields → List (String × Tags × Typ)
  | .nil => []
  | .cons fname tags ty rest => (fname, tags, ty) :: rest.toList

/-! ## OpenAPI schema nodes (the parts of `openapi3.Schema` the source sets) -/

/-- The scalar payload of a schema node.  `minLength` is `uint64` in the
source with `omitempty` serialization, so the absent bound and the Go zero
value coincide on the wire; it is modelled as `Option Nat` where `none` is
the absent bound.  `minimum`/`maximum` are `*float64`, modelled exactly in
`ℚ`. -/
structure SchemaCore where
  stype : String
  format : Option String := none
  exampleV : Option String := none
  minLength : Option Nat := none
  maxLength : Option Nat := none
  minimum : Option ℚ := none
  maximum : Option ℚ := none
  enum : Option (List String) := none
  required : List String := []
  deriving Repr, DecidableEq

mutual
/-- A schema node: its scalar core, object properties, array items, and
map value schema (`additionalProperties`). -/
inductive Schema where
  | node (core : SchemaCore) (properties : SProps) (items : Option Schema)
      (addProps : Option Schema)

/-- Ordered object properties (the source stores them in a Go map keyed by
serialized field name; the spec requires those names unique, so the ordered
list carries the same information). -/
inductive SProps where
  | nil
  | cons (name : String) (s : Schema) (rest : SProps)
end

def Schema.core : Schema → SchemaCore
  | .node c _ _ _ => c

def Schema.props : Schema → SProps
  | .node _ p _ _ => p

def Schema.itemsOf : Schema → Option Schema
  | .node _ _ i _ => i

def Schema.addPropsOf : Schema → Option Schema
  | .node _ _ _ a => a

def Schema.mapCore (f : SchemaCore → SchemaCore) : Schema → Schema
  | .node c p i a => .node (f c) p i a

/-- Schema node with only a type, everything else absent. -/
def mkScalar (t : String) : Schema :=
  .node { stype := t } .nil none none

/-! ## Validate-tag processing (src/echonext.go lines 666-743) -/

/-- The serialized field name: the Go field name when the `json` tag is
absent/empty, else the part of the tag before the first comma (line 673-677). -/
def serializedName (fname jsonTag : String) : String :=
  if jsonTag = "" then fname else (splitS jsonTag ',').headD ""

/-- Whether the `json` tag carries an `omitempty` option (lines 674-683). -/
def isOmitempty (jsonTag : String) : Bool :=
  jsonTag ≠ "" && (splitS jsonTag ',').tail.contains "omitempty"

/-- The source's required test (line 694): the raw validate tag is non-empty,
contains the substring `required`, and the field is not `omitempty`. -/
def requiredMark (vTag : String) (omitempty : Bool) : Bool :=
  vTag ≠ "" && strContains vTag "required" && !omitempty

/-- The `min=` branch of the token loop (lines 701-713): a bound goes to
`minLength` on a string-typed node (via `strconv.Atoi`, with the Go
`uint64(...)` wrap of a negative value made explicit) and to `minimum` on
an integer/number-typed node (via `strconv.ParseFloat`); an empty value, a
parse failure or any other node type sets nothing. -/
def applyMin (core : SchemaCore) (v : String) : SchemaCore :=
  if hasPre v "min=" then
    let val := trimPre v "min="
    if val ≠ "" then
      if core.stype = "string" then
        match atoi? val with
        | some n => { core with minLength := some ((n % (2 : Int) ^ 64).toNat) }
        | none => core
      else if core.stype = "integer" || core.stype = "number" then
        match parseFloat? val with
        | some q => { core with minimum := some q }
        | none => core
      else core
    else core
  else core

/-- The `max=` branch of the token loop (lines 714-727), symmetric to
`applyMin`. -/
def applyMax (core : SchemaCore) (v : String) : SchemaCore :=
  if hasPre v "max=" then
    let val := trimPre v "max="
    if val ≠ "" then
      if core.stype = "string" then
        match atoi? val with
        | some n => { core with maxLength := some ((n % (2 : Int) ^ 64).toNat) }
        | none => core
      else if core.stype = "integer" || core.stype = "number" then
        match parseFloat? val with
        | some q => { core with maximum := some q }
        | none => core
      else core
    else core
  else core

/-- The `email` branch of the token loop (lines 728-730). -/
def applyEmail (core : SchemaCore) (v : String) : SchemaCore :=
  if v = "email" then { core with format := some "email" } else core

/-- The `oneof=` branch of the token loop (lines 731-738). -/
def applyOneof (core : SchemaCore) (v : String) : SchemaCore :=
  if hasPre v "oneof=" then
    { core with enum := some (splitS (trimPre v "oneof=") ' ') }
  else core

/-- One comma-separated token of the validate tag applied to a field schema
core: the four independent `if` branches of the loop body (lines 700-739)
in source order. -/
def applyToken (core : SchemaCore) (v : String) : SchemaCore :=
  applyOneof (applyEmail (applyMax (applyMin core v) v) v) v

/-- All tokens of a validate tag applied in order (Go `strings.Split` on a
non-empty tag never yields the empty list). -/
def applyValidations (vTag : String) (core : SchemaCore) : SchemaCore :=
  (splitS vTag ',').foldl applyToken core

/-- The per-field schema: the derived schema of the field type, with the
`example` tag (lines 688-690) and then the validate tokens applied to its
core (lines 693-740).  The required-list update lives in `genFields`. -/
def fieldSchemaOf (tags : Tags) (base : Schema) : Schema :=
  let withEx :=
    if tags.exampleV.getD "" ≠ "" then
      base.mapCore (fun c => { c with exampleV := some (tags.exampleV.getD "") })
    else base
  let vTag := tags.validate.getD ""
  if vTag ≠ "" then withEx.mapCore (applyValidations vTag) else withEx

/-! ## The schema derivation engine (src/echonext.go lines 628-749) -/

mutual
/-- The body of `generateSchema`.  The Bool records whether the single
pointer dereference at lines 629-631 is still available: the function
dereferences a pointer once and then switches on the kind, so a second
pointer level falls through to the default `object` case.  Every recursive
call of the source re-enters through the dereference, hence passes `true`. -/
def genS : Bool → Typ → Schema
  | true, .tPtr e => genS false e
  | false, .tPtr _ => mkScalar "object"
  | _, .tString => mkScalar "string"
  | _, .tInt => mkScalar "integer"
  | _, .tFloat => mkScalar "number"
  | _, .tBool => mkScalar "boolean"
  | _, .tTime => .node { stype := "string", format := some "date-time" } .nil none none
  | _, .tOther => mkScalar "object"
  | _, .tSlice e => .node { stype := "array" } .nil (some (genS true e)) none
  | _, .tMap e => .node { stype := "object" } .nil none (some (genS true e))
  | _, .tStruct fs =>
      let pr := genFields fs
      .node { stype := "object", required := pr.2 } pr.1 none none

/-- The struct-field loop (lines 666-743): skips fields whose raw `json`
tag is `-`, emits the per-field schema under the serialized name, and
collects the required list via the source's substring test. -/
def genFields : Fields → SProps × List String
  | .nil => (.nil, [])
  | .cons fname tags ty rest =>
      let jsonTag := tags.json.getD ""
      if jsonTag = "-" then genFields rest
      else
        let fieldName := serializedName fname jsonTag
        let fSchema := fieldSchemaOf tags (genS true ty)
        let restPR := genFields rest
        (.cons fieldName fSchema restPR.1,
         if requiredMark (tags.validate.getD "") (isOmitempty jsonTag) then
           fieldName :: restPR.2
         else restPR.2)
end

/-- `generateSchema` proper: enter the kind switch with the one pointer
dereference available. -/
def generateSchema (t : Typ) : Schema :=
  genS true t

/-- Type-compatibility of the bounds on one node: length bounds only on a
string-typed node, numeric bounds only on an integer/number-typed node. -/
def coreBoundsOk (c : SchemaCore) : Bool :=
  (c.stype = "string" || (c.minLength = none && c.maxLength = none)) &&
  (c.stype = "integer" || c.stype = "number" ||
    (c.minimum = none && c.maximum = none))

mutual
/-- Bounds are placed on type-compatible nodes only, recursively through
the whole schema tree. -/
def Schema.boundsOk : Schema → Bool
  | .node c p i a =>
      coreBoundsOk c &&
      SProps.boundsOkP p &&
      (match i with | none => true | some s => s.boundsOk) &&
      (match a with | none => true | some s => s.boundsOk)

def SProps.boundsOkP : SProps → Bool
  | .nil => true
  | .cons _ s rest => s.boundsOk && SProps.boundsOkP rest
end

/-- Modelled from the spec: the ConstraintSet marks a field required when
the token `required` itself appears among the comma-separated constraint
tokens (spec §3 ConstraintSet, §6 annotation surface).  This is the
refinement counterpart of the source's substring test `requiredMark`. -/
def constraintRequired (vTag : String) : Bool :=
  (splitS vTag ',').contains "required"

/-! ## Purity of derivation (claim C9)

`generateSchema` is a method with receiver `*App` in the source.  Its body
never reads or writes the receiver (the only use of `app` is the recursive
call), so the embedding threads the receiver state through every call
exactly as the Go call tree does, in order to prove it comes back
unchanged and that the result does not depend on it. -/

/-- The registration-time record the source keeps per route (`RouteInfo`,
reduced to the parts the modelled functions touch). -/
structure RouteRec where
  method : String
  path : String
  reqTy : Option Typ
  respTy : Option Typ

/-- The mutable `App` receiver: accumulated routes and the OpenAPI info
header (`spec.Info`); enough state to make mutation observable. -/
structure AppState where
  title : String := "API"
  version : String := "1.0.0"
  routes : List RouteRec := []

mutual
/-- `generateSchema` with its `*App` receiver threaded through the call
tree, mirroring the Go method-call structure. -/
def genSApp : AppState → Bool → Typ → Schema × AppState
  | st, true, .tPtr e => genSApp st false e
  | st, false, .tPtr _ => (mkScalar "object", st)
  | st, _, .tString => (mkScalar "string", st)
  | st, _, .tInt => (mkScalar "integer", st)
  | st, _, .tFloat => (mkScalar "number", st)
  | st, _, .tBool => (mkScalar "boolean", st)
  | st, _, .tTime => (.node { stype := "string", format := some "date-time" } .nil none none, st)
  | st, _, .tOther => (mkScalar "object", st)
  | st, _, .tSlice e =>
      let r := genSApp st true e
      (.node { stype := "array" } .nil (some r.1) none, r.2)
  | st, _, .tMap e =>
      let r := genSApp st true e
      (.node { stype := "object" } .nil none (some r.1), r.2)
  | st, _, .tStruct fs =>
      let r := genFieldsApp st fs
      (.node { stype := "object", required := r.1.2 } r.1.1 none none, r.2)

/-- The struct-field loop with the receiver threaded. -/
def genFieldsApp : AppState → Fields → (SProps × List String) × AppState
  | st, .nil => ((.nil, []), st)
  | st, .cons fname tags ty rest =>
      let jsonTag := tags.json.getD ""
      if jsonTag = "-" then genFieldsApp st rest
      else
        let fieldName := serializedName fname jsonTag
        let fr := genSApp st true ty
        let fSchema := fieldSchemaOf tags fr.1
        let restPR := genFieldsApp fr.2 rest
        ((.cons fieldName fSchema restPR.1.1,
          if requiredMark (tags.validate.getD "") (isOmitempty jsonTag) then
            fieldName :: restPR.1.2
          else restPR.1.2), restPR.2)
end

/-! ## Runtime values and typed instances (the request pipeline's data) -/

mutual
/-- A runtime value held by a field of the typed instance, and at the same
time a JSON value of a request body.  `vNull` stands both for JSON null and
for Go nil (nil slice/map/pointer/interface). -/
inductive Value where
  | vNull
  | vStr (s : String)
  | vInt (n : Int)
  | vFloat (q : ℚ)
  | vBool (b : Bool)
  | vArr (elems : List Value)
  | vObj (fields : ObjFields)

/-- Ordered fields of a JSON object / Go struct value. -/
inductive ObjFields where
  | nil
  | cons (name : String) (v : Value) (rest : ObjFields)
end

/-- First field of the object with the given name. -/
def ObjFields.lookup : ObjFields → String → Option Value
  | .nil, _ => none
  | .cons n v rest, key => if n = key then some v else rest.lookup key

mutual
/-- `reflect.Value.IsZero`: the zero string/number/bool, nil, and a struct
all of whose fields are zero.  A non-nil slice value (`vArr`) is never zero
(a nil slice is `vNull`). -/
def Value.isZeroV : Value → Bool
  | .vNull => true
  | .vStr s => s = ""
  | .vInt n => n = 0
  | .vFloat q => q = 0
  | .vBool b => b = false
  | .vArr _ => false
  | .vObj fs => fs.allZero

def ObjFields.allZero : ObjFields → Bool
  | .nil => true
  | .cons _ v rest => v.isZeroV && rest.allZero
end

mutual
/-- The Go zero value of a type (`reflect.New(t).Elem()`). -/
def zeroValue : Typ → Value
  | .tString => .vStr ""
  | .tInt => .vInt 0
  | .tFloat => .vFloat 0
  | .tBool => .vBool false
  | .tTime => .vObj .nil
  | .tOther => .vNull
  | .tSlice _ => .vNull
  | .tMap _ => .vNull
  | .tPtr _ => .vNull
  | .tStruct fs => .vObj (zeroObj fs)

def zeroObj : Fields → ObjFields
  | .nil => .nil
  | .cons fname _ ty rest => .cons fname (zeroValue ty) (zeroObj rest)
end

/-- The typed instance under construction, as a map from Go field name to
the value currently held by that field. -/
def Inst : Type := String → Value

/-- Overwrite one field of the instance. -/
def Inst.set (i : Inst) (n : String) (v : Value) : Inst :=
  fun m => if m = n then v else i m

/-- The freshly materialized zero instance of the input struct. -/
def zeroInst (fs : Fields) : Inst :=
  fun n =>
    match (fs.toList.find? (fun e => e.1 = n)) with
    | some e => zeroValue e.2.2
    | none => .vNull

/-! ## The request context (echo's collaborator interface, spec §6) -/

inductive Method where
  | get | post | put | patch | delete
  deriving Repr, DecidableEq

/-- An inbound request as the handler closure observes it through the echo
context: HTTP method, path variables, query parameters, and the JSON body
(`none` models a body that is not well-formed JSON). -/
structure Request where
  method : Method
  pathParams : List (String × String) := []
  queryParams : List (String × String) := []
  body : Option ObjFields := none

/-- Whether the closure takes the query-parameter binding branch
(line 273: the request method is GET or DELETE). -/
def Method.isRead : Method → Bool
  | .get => true
  | .delete => true
  | _ => false

/-! ## Binding (echo's DefaultBinder as used at lines 272-297) -/

/-- String-to-field conversion used by echo's `bindData` for query and path
parameters, and a parse failure is a binding error.  Struct/slice/map-typed
fields from single string parameters are outside the model (echo's
multi-value and unmarshaler paths are not exercised by the source). -/
def convertStr : Typ → String → Option Value
  | .tString, s => some (.vStr s)
  | .tInt, s => (atoi? s).map .vInt
  | .tFloat, s => (parseFloat? s).map .vFloat
  | .tBool, s => (parseBool? s).map .vBool
  | .tPtr e, s => convertStr e s
  | _, _ => none

/-- Nonempty message echo produces for a failed string conversion. -/
def convErrMsg (raw : String) : String :=
  "strconv: parsing " ++ raw ++ ": invalid syntax"

/-- The name a field binds from for a non-body source: the given tag when
present, else the Go field name (echo's `bindData` fallback). -/
def bindName (tag : Option String) (fname : String) : String :=
  match tag with
  | some t => t
  | none => fname

/-- First query/path parameter with the given name. -/
def lookupParam (ps : List (String × String)) (name : String) : Option String :=
  (ps.find? (fun p => p.1 = name)).map (fun p => p.2)

/-- echo `(&echo.DefaultBinder{}).BindQueryParams`: for each field, consult
the `query` tag, convert the matching raw parameter if present. -/
def bindQueryParams : Fields → List (String × String) → Inst → Except String Inst
  | .nil, _, inst => .ok inst
  | .cons fname tags ty rest, q, inst =>
      match lookupParam q (bindName tags.query fname) with
      | none => bindQueryParams rest q inst
      | some raw =>
          match convertStr ty raw with
          | none => .error (convErrMsg raw)
          | some v => bindQueryParams rest q (inst.set fname v)

/-- echo `(&echo.DefaultBinder{}).BindPathParams`: same walk driven by the
`param` tag over the route's path variables. -/
def bindPathParams : Fields → List (String × String) → Inst → Except String Inst
  | .nil, _, inst => .ok inst
  | .cons fname tags ty rest, ps, inst =>
      match lookupParam ps (bindName tags.param fname) with
      | none => bindPathParams rest ps inst
      | some raw =>
          match convertStr ty raw with
          | none => .error (convErrMsg raw)
          | some v => bindPathParams rest ps (inst.set fname v)

/-- Top-level type agreement of a JSON value with a field type, as
`encoding/json` enforces it; decoding inside nested containers is
abstracted (stdlib collaborator), a mismatch is an unmarshal error. -/
def convertJson : Typ → Value → Option Value
  | .tString, .vStr s => some (.vStr s)
  | .tInt, .vInt n => some (.vInt n)
  | .tFloat, .vFloat q => some (.vFloat q)
  | .tFloat, .vInt n => some (.vFloat (n : ℚ))
  | .tBool, .vBool b => some (.vBool b)
  | .tTime, .vStr s => some (.vStr s)
  | .tSlice _, .vArr xs => some (.vArr xs)
  | .tMap _, .vObj o => some (.vObj o)
  | .tStruct _, .vObj o => some (.vObj o)
  | .tPtr _, .vNull => some .vNull
  | .tPtr e, v => convertJson e v
  | _, _ => none

/-- `encoding/json` unmarshalling of the request body object into the
struct: fields are keyed by serialized name, a `-` json tag is skipped, a
key absent from the body leaves the field untouched, a JSON null is a
no-op, and a type mismatch aborts with an error. -/
def bindBodyJSON : Fields → ObjFields → Inst → Except String Inst
  | .nil, _, inst => .ok inst
  | .cons fname tags ty rest, body, inst =>
      let jsonTag := tags.json.getD ""
      if jsonTag = "-" then bindBodyJSON rest body inst
      else
        match body.lookup (serializedName fname jsonTag) with
        | none => bindBodyJSON rest body inst
        | some .vNull => bindBodyJSON rest body inst
        | some jv =>
            match convertJson ty jv with
            | none => .error ("json: cannot unmarshal value into field " ++ fname)
            | some v => bindBodyJSON rest body (inst.set fname v)

/-- echo `c.Bind` for the body-carrying branch (line 283): the
DefaultBinder binds path parameters first, then unmarshals the JSON body
over them; a malformed body is an EOF-style error. -/
def echoBind (fs : Fields) (req : Request) (inst : Inst) : Except String Inst :=
  match bindPathParams fs req.pathParams inst with
  | .error e => .error e
  | .ok i1 =>
      match req.body with
      | none => .error "unexpected EOF"
      | some obj => bindBodyJSON fs obj i1

/-! ## Validation (`app.validator.Struct(req)` at line 300, the
go-playground validator restricted to the constraint vocabulary of the
spec's annotation surface: required, min, max, email, oneof, omitempty) -/

/-- Simplified model of the validator's email format check (the library's
regular expression is an external collaborator; the claims only use that
some string fails it and some string passes it). -/
def isEmailLike (s : String) : Bool :=
  match splitS s '@' with
  | [l, r] => l ≠ "" && r ≠ "" && strContains r "."
  | _ => false

/-- Whether one validate token fails on a field value.  `required` fails on
the zero value; `min=`/`max=` compare string length or numeric value;
`oneof` is membership of a string value; unknown tokens never fail (the
spec's tolerant-reader policy — tokens outside the spec's vocabulary are
not modelled further). -/
def tokenFails (v : Value) (tok : String) : Bool :=
  if tok = "required" then v.isZeroV
  else if hasPre tok "min=" then
    match atoi? (trimPre tok "min=") with
    | some n =>
        match v with
        | .vStr s => decide ((s.toList.length : Int) < n)
        | .vInt m => decide (m < n)
        | .vFloat q => decide (q < (n : ℚ))
        | _ => false
    | none => false
  else if hasPre tok "max=" then
    match atoi? (trimPre tok "max=") with
    | some n =>
        match v with
        | .vStr s => decide ((n : Int) < (s.toList.length : Int))
        | .vInt m => decide (n < m)
        | .vFloat q => decide ((n : ℚ) < q)
        | _ => false
    | none => false
  else if tok = "email" then
    match v with
    | .vStr s => !isEmailLike s
    | _ => false
  else if hasPre tok "oneof=" then
    match v with
    | .vStr s => !(splitS (trimPre tok "oneof=") ' ').contains s
    | _ => false
  else false

/-- Walk one field's tokens in order: `omitempty` on an empty value skips
the rest; the first failing token is reported. -/
def fieldFailure (v : Value) : List String → Option String
  | [] => none
  | tok :: rest =>
      if tok = "omitempty" && v.isZeroV then none
      else if tokenFails v tok then some tok
      else fieldFailure v rest

/-- The (non-empty) per-field message of a validation failure, after the
shape of the go-playground error text. -/
def validationErrMsg (fname tok : String) : String :=
  "Field validation for " ++ fname ++ " failed on the " ++ tok ++ " tag"

/-- `validator.Struct` on the populated instance: fields in declaration
order, first failing field reported (the reference behaviour the spec
documents), `none` when every constraint passes. -/
def validateInst : Fields → Inst → Option String
  | .nil, _ => none
  | .cons fname tags _ rest, inst =>
      let vTag := tags.validate.getD ""
      match (if vTag = "" then none
             else (fieldFailure (inst fname) (splitS vTag ',')).map (validationErrMsg fname)) with
      | some m => some m
      | none => validateInst rest inst

/-! ## Result normalization (src/echonext.go lines 313-348) -/

/-- An error value a handler can return: either an `*echo.HTTPError` with
its transport status and message, or any other error with its `Error()`
text. -/
inductive GoError where
  | httpErr (code : Int) (message : String)
  | plainErr (text : String)

/-- One entry of the reflect `Call` result slice: a payload value, or an
error-typed result (which holds `none` when the returned error is nil). -/
inductive ResultVal where
  | val (v : Value)
  | errv (e : Option GoError)

/-- `results[0].IsZero()` (its `IsValid()` companion is always true for
values produced by `reflect.Call`): a nil error interface is zero, a
non-nil one is not. -/
def ResultVal.isZeroR : ResultVal → Bool
  | .val v => v.isZeroV
  | .errv none => true
  | .errv (some _) => false

/-- `results[0].Interface()` as the serialized `data` payload:
`json.Marshal` of an `*echo.HTTPError` emits its message field, of any
other error an empty object. -/
def ResultVal.toValue : ResultVal → Value
  | .val v => v
  | .errv (some (.httpErr _ m)) => .vObj (.cons "message" (.vStr m) .nil)
  | .errv (some (.plainErr _)) => .vObj .nil
  | .errv none => .vNull

/-- Lines 316-317: only when the result slice has more than one entry is
its last entry checked for a non-nil error. -/
def checkErr (results : List ResultVal) : Option GoError :=
  if results.length > 1 then
    match results.getLast? with
    | some (.errv (some e)) => some e
    | _ => none
  else none

/-- The response envelope `Response[any]` (line 84-89): `data` is
`omitempty`, so `none` models the field absent from the serialized body;
`error` is likewise omitted when empty. -/
structure Envelope where
  data : Option Value
  error : String
  success : Bool

/-- What the closure writes back: a JSON body with a status, or
`c.NoContent` with its status and no body at all. -/
inductive HttpResponse where
  | json (status : Int) (env : Envelope)
  | noContent (status : Int)

/-- Route metadata the closure consults (`Route.SuccessStatus`). -/
structure RouteCfg where
  successStatus : Int := 0

/-- Line 334-338: the declared success status when the route config carries
a positive one, else 200. -/
def successStatusOf (cfg : Option RouteCfg) : Int :=
  match cfg with
  | some c => if c.successStatus > 0 then c.successStatus else 200
  | none => 200

/-- Lines 313-348: the response computed from the call results.  An
`*echo.HTTPError` in the last slot (of a multi-result slice) maps to its
own status, any other non-nil error to 500; otherwise a non-zero first
result is wrapped as success with the declared status and everything else
falls through to 204 No Content. -/
def normalize (cfg : Option RouteCfg) (results : List ResultVal) : HttpResponse :=
  match results with
  | [] => .noContent 204
  | r0 :: rest =>
      match checkErr (r0 :: rest) with
      | some (.httpErr code msg) => .json code { data := none, error := msg, success := false }
      | some (.plainErr text) => .json 500 { data := none, error := text, success := false }
      | none =>
          if !r0.isZeroR then
            .json (successStatusOf cfg) { data := some r0.toValue, error := "", success := true }
          else .noContent 204

/-! ## The handler closure (src/echonext.go lines 261-349) -/

/-- The user handler as the closure calls it through reflection: it
receives the bound instance when the route declared an input shape, and
produces the reflect result slice. -/
def HandlerFn : Type := Option Inst → List ResultVal

/-- Lines 272-289: the GET/DELETE branch binds query parameters, the body
branch runs `c.Bind`; a failing step yields the 400 message the source
formats for it. -/
def bindStage1 (fs : Fields) (req : Request) : Except String Inst :=
  if req.method.isRead then
    match bindQueryParams fs req.queryParams (zeroInst fs) with
    | .error e => .error ("Invalid query parameters: " ++ e)
    | .ok i => .ok i
  else
    match echoBind fs req (zeroInst fs) with
    | .error e => .error ("Invalid request body: " ++ e)
    | .ok i => .ok i

/-- Lines 272-297 collapsed into one `Except`: the source-or-body binding
stage, followed by `BindPathParams` (lines 291-297) overlaying path
variables on the instance it produced. -/
def bindInput (fs : Fields) (req : Request) : Except String Inst :=
  match bindStage1 fs req with
  | .error e => .error e
  | .ok i1 =>
      match bindPathParams fs req.pathParams i1 with
      | .error e => .error ("Invalid path parameters: " ++ e)
      | .ok i2 => .ok i2

/-- The closure `createEchoHandler` returns, as a function of the request.
The Bool of the result records whether the user handler was invoked
(`handlerValue.Call` at line 311 executes only after binding and
validation both succeed).  `respTy` is passed by the source but unused by
the closure, as here. -/
def createEchoHandler (handler : HandlerFn) (reqFields : Option Fields)
    ( _respTy : Option Typ) (cfg : Option RouteCfg) : Request → HttpResponse × Bool :=
  fun req =>
    match reqFields with
    | none => (normalize cfg (handler none), true)
    | some fs =>
        match bindInput fs req with
        | .error msg => (.json 400 { data := none, error := msg, success := false }, false)
        | .ok inst =>
            match validateInst fs inst with
            | some verr =>
                (.json 400 { data := none, error := "Validation failed: " ++ verr, success := false }, false)
            | none => (normalize cfg (handler (some inst)), true)

/-! ## Route registration (src/echonext.go lines 209-258) -/

/-- A handler-like value as reflection sees it at registration: a function
with its parameter and result types, or a value of any non-function kind. -/
inductive HandlerVal where
  | fn (ins : List Typ) (outs : List Typ)
  | nonFn (kind : String)

def HandlerVal.isFunc : HandlerVal → Bool
  | .fn _ _ => true
  | .nonFn _ => false

/-- Modelled from the spec (§4.3): a handler is acceptable when it is a
callable whose first argument is context-like.  `tOther` stands for the
`echo.Context` interface type in a parameter list. -/
def specAcceptable : HandlerVal → Bool
  | .fn (.tOther :: _) _ => true
  | _ => false

/-- `registerRoute` (lines 209-241): panic — modelled as `Except.error` —
unless the handler is a function; then record the second parameter type as
the request type and the first result type as the response type and append
the route.  No inspection of the first parameter happens. -/
def registerRoute (routes : List RouteRec) (method path : String) (h : HandlerVal) :
    Except String (List RouteRec) :=
  match h with
  | .nonFn _ => .error "handler must be a function"
  | .fn ins outs =>
      .ok (routes ++ [{ method := method, path := path,
                        reqTy := if ins.length > 1 then ins.get? 1 else none,
                        respTy := if outs.length > 0 then outs.get? 0 else none }])

/-! ## Helper lemmas -/

theorem str_append_ne (s t : String) (h : s.toList ≠ []) : s ++ t ≠ "" := by
  obtain ⟨ds⟩ := s
  obtain ⟨dt⟩ := t
  intro he
  have hd : ds ++ dt = ([] : List Char) := congrArg String.data he
  exact h (by simpa [String.toList] using (List.append_eq_nil.mp hd).1)

theorem applyMin_stype (c : SchemaCore) (v : String) :
    (applyMin c v).stype = c.stype := by
  unfold applyMin
  dsimp only
  repeat' split
  all_goals rfl

theorem applyMax_stype (c : SchemaCore) (v : String) :
    (applyMax c v).stype = c.stype := by
  unfold applyMax
  dsimp only
  repeat' split
  all_goals rfl

theorem applyEmail_stype (c : SchemaCore) (v : String) :
    (applyEmail c v).stype = c.stype := by
  unfold applyEmail
  split <;> rfl

theorem applyOneof_stype (c : SchemaCore) (v : String) :
    (applyOneof c v).stype = c.stype := by
  unfold applyOneof
  split <;> rfl

theorem applyToken_stype (c : SchemaCore) (v : String) :
    (applyToken c v).stype = c.stype := by
  unfold applyToken
  rw [applyOneof_stype, applyEmail_stype, applyMax_stype, applyMin_stype]

theorem applyMin_coreBoundsOk (c : SchemaCore) (v : String)
    (h : coreBoundsOk c = true) : coreBoundsOk (applyMin c v) = true := by
  unfold applyMin
  dsimp only
  unfold coreBoundsOk at h ⊢
  repeat' split
  all_goals simp_all

theorem applyMax_coreBoundsOk (c : SchemaCore) (v : String)
    (h : coreBoundsOk c = true) : coreBoundsOk (applyMax c v) = true := by
  unfold applyMax
  dsimp only
  unfold coreBoundsOk at h ⊢
  repeat' split
  all_goals simp_all

theorem applyEmail_coreBoundsOk (c : SchemaCore) (v : String)
    (h : coreBoundsOk c = true) : coreBoundsOk (applyEmail c v) = true := by
  unfold applyEmail
  unfold coreBoundsOk at h ⊢
  split <;> simp_all

theorem applyOneof_coreBoundsOk (c : SchemaCore) (v : String)
    (h : coreBoundsOk c = true) : coreBoundsOk (applyOneof c v) = true := by
  unfold applyOneof
  unfold coreBoundsOk at h ⊢
  split <;> simp_all

theorem applyToken_coreBoundsOk (c : SchemaCore) (v : String)
    (h : coreBoundsOk c = true) : coreBoundsOk (applyToken c v) = true :=
  applyOneof_coreBoundsOk _ _ (applyEmail_coreBoundsOk _ _
    (applyMax_coreBoundsOk _ _ (applyMin_coreBoundsOk _ _ h)))

theorem foldl_applyToken_coreBoundsOk (toks : List String) (c : SchemaCore)
    (h : coreBoundsOk c = true) : coreBoundsOk (toks.foldl applyToken c) = true := by
  induction toks generalizing c with
  | nil => exact h
  | cons tok rest ih => exact ih _ (applyToken_coreBoundsOk c tok h)

theorem applyValidations_coreBoundsOk (vTag : String) (c : SchemaCore)
    (h : coreBoundsOk c = true) : coreBoundsOk (applyValidations vTag c) = true :=
  foldl_applyToken_coreBoundsOk _ c h

theorem foldl_applyToken_stype (toks : List String) (c : SchemaCore) :
    (toks.foldl applyToken c).stype = c.stype := by
  induction toks generalizing c with
  | nil => rfl
  | cons tok rest ih => simpa [applyToken_stype] using ih (applyToken c tok)

theorem exUpd_coreBoundsOk (c : SchemaCore) (x : Option String)
    (h : coreBoundsOk c = true) : coreBoundsOk { c with exampleV := x } = true := by
  simpa [coreBoundsOk] using h

theorem fieldSchemaOf_boundsOk (tags : Tags) (s : Schema)
    (h : s.boundsOk = true) : (fieldSchemaOf tags s).boundsOk = true := by
  obtain ⟨c, p, i, a⟩ := s
  unfold Schema.boundsOk at h
  simp only [Bool.and_eq_true] at h
  obtain ⟨⟨⟨h1, h2⟩, h3⟩, h4⟩ := h
  have hgoal : ∀ c' : SchemaCore, coreBoundsOk c' = true →
      (Schema.node c' p i a).boundsOk = true := by
    intro c' hc'
    unfold Schema.boundsOk
    simp only [Bool.and_eq_true]
    exact ⟨⟨⟨hc', h2⟩, h3⟩, h4⟩
  unfold fieldSchemaOf
  dsimp only
  split <;> split <;>
    first
      | exact hgoal _ (applyValidations_coreBoundsOk _ _ (exUpd_coreBoundsOk _ _ h1))
      | exact hgoal _ (exUpd_coreBoundsOk _ _ h1)

mutual
theorem genS_boundsOk : ∀ (b : Bool) (t : Typ), (genS b t).boundsOk = true
  | true, .tPtr e => by
      simpa [genS] using genS_boundsOk false e
  | false, .tPtr _ => by simp [genS, mkScalar, Schema.boundsOk, SProps.boundsOkP, coreBoundsOk]
  | _, .tString => by simp [genS, mkScalar, Schema.boundsOk, SProps.boundsOkP, coreBoundsOk]
  | _, .tInt => by simp [genS, mkScalar, Schema.boundsOk, SProps.boundsOkP, coreBoundsOk]
  | _, .tFloat => by simp [genS, mkScalar, Schema.boundsOk, SProps.boundsOkP, coreBoundsOk]
  | _, .tBool => by simp [genS, mkScalar, Schema.boundsOk, SProps.boundsOkP, coreBoundsOk]
  | _, .tTime => by simp [genS, mkScalar, Schema.boundsOk, SProps.boundsOkP, coreBoundsOk]
  | _, .tOther => by simp [genS, mkScalar, Schema.boundsOk, SProps.boundsOkP, coreBoundsOk]
  | b, .tSlice e => by
      simp [genS, Schema.boundsOk, SProps.boundsOkP, coreBoundsOk, genS_boundsOk true e]
  | b, .tMap e => by
      simp [genS, Schema.boundsOk, SProps.boundsOkP, coreBoundsOk, genS_boundsOk true e]
  | b, .tStruct fs => by
      simp [genS, Schema.boundsOk, coreBoundsOk, genFields_boundsOk fs]

theorem genFields_boundsOk : ∀ (fs : Fields), SProps.boundsOkP (genFields fs).1 = true
  | .nil => by simp [genFields, SProps.boundsOkP]
  | .cons fname tags ty rest => by
      unfold genFields
      dsimp only
      split
      · exact genFields_boundsOk rest
      · simp [SProps.boundsOkP, genFields_boundsOk rest,
          fieldSchemaOf_boundsOk tags _ (genS_boundsOk true ty)]
end

/-- C5.  For every field and every annotation content, schema derivation
never places a string-length bound on a non-string schema node and never
places a numeric bound (min/max) on a non-numeric schema node, recursively
through the derived tree; and on a node whose type is neither string nor
integer/number, applying any validate tag leaves every bound absent (a
`min=`/`max=` constraint there is silently ignored). -/
theorem bound_type_gating :
    (∀ t : Typ, (generateSchema t).boundsOk = true) ∧
    (∀ (vTag : String) (c : SchemaCore), coreBoundsOk c = true →
      c.stype ≠ "string" → c.stype ≠ "integer" → c.stype ≠ "number" →
      (applyValidations vTag c).minLength = none ∧
      (applyValidations vTag c).maxLength = none ∧
      (applyValidations vTag c).minimum = none ∧
      (applyValidations vTag c).maximum = none) := by
  constructor
  · exact fun t => genS_boundsOk true t
  · intro vTag c hok hs hi hn
    have hpres := applyValidations_coreBoundsOk vTag c hok
    have hty : (applyValidations vTag c).stype = c.stype := foldl_applyToken_stype _ c
    unfold coreBoundsOk at hpres
    rw [hty] at hpres
    simp [hs, hi, hn] at hpres
    exact ⟨hpres.1.1, hpres.1.2, hpres.2.1, hpres.2.2⟩

/-- Witness for C5 at a concrete boolean-typed node carrying a `min=`
constraint. -/
theorem bound_type_gating_witness :
    (generateSchema (.tStruct (.cons "Done" { json := some "done", validate := some "min=3" } .tBool .nil))).boundsOk = true ∧
    (applyValidations "min=3,max=9" { stype := "boolean" }).minLength = none := by
  refine ⟨bound_type_gating.1 _, ?_⟩
  exact (bound_type_gating.2 "min=3,max=9" { stype := "boolean" } (by decide)
    (by decide) (by decide) (by decide)).1

/-! ## C4: the required list -/

/-- A struct whose single field carries `validate:"oneof=required optional"`:
its ConstraintSet has only an enum constraint, yet the raw tag contains the
substring `required`. -/
def fsC4 : Fields :=
  .cons "Mode" { json := some "mode", validate := some "oneof=required optional" } .tString .nil

/-- C4 counterexample: the source adds `mode` to the required list by the
substring test although the ConstraintSet does not mark the field required
(and it is not omit-if-empty), so the claimed iff fails on this shape. -/
theorem required_substring_cex :
    ¬ (("mode" ∈ (genFields fsC4).2) ↔
       (constraintRequired "oneof=required optional" = true ∧
        isOmitempty "mode" = false)) := by
  decide

/-- C4 amended.  A field's serialized name appears in the schema's required
list iff some field of the shape serializes to that name, is not skipped by
a `-` json tag, and the source's required test holds for it: the raw
validate annotation is non-empty, contains `required` as a substring (not
necessarily as a whole token), and the field is not marked omit-if-empty. -/
theorem required_list_characterization : ∀ (fs : Fields) (sname : String),
    sname ∈ (genFields fs).2 ↔
      ∃ e ∈ fs.toList, (e.2.1.json.getD "") ≠ "-" ∧
        serializedName e.1 (e.2.1.json.getD "") = sname ∧
        requiredMark (e.2.1.validate.getD "") (isOmitempty (e.2.1.json.getD "")) = true
  | .nil, sname => by simp [genFields, Fields.toList]
  | .cons fname tags ty rest, sname => by
      have ih := required_list_characterization rest sname
      unfold genFields
      dsimp only
      split
      case isTrue hj =>
        rw [ih]
        simp [Fields.toList, hj]
      case isFalse hj =>
        by_cases hr : requiredMark (tags.validate.getD "") (isOmitempty (tags.json.getD "")) = true
        · simp [hr, Fields.toList, List.mem_cons, ih, hj]
          tauto
        · simp [hr, Fields.toList, ih, hj]

/-! ## C6: malformed numeric bounds are dropped, not zeroed -/

/-- Every `min=`/`max=` fragment of this token has a value that parses
neither as an int (`strconv.Atoi`) nor as a float (`strconv.ParseFloat`). -/
def malformedNum (tok : String) : Bool :=
  (!hasPre tok "min=" ||
    (decide (atoi? (trimPre tok "min=") = none) &&
     decide (parseFloat? (trimPre tok "min=") = none))) &&
  (!hasPre tok "max=" ||
    (decide (atoi? (trimPre tok "max=") = none) &&
     decide (parseFloat? (trimPre tok "max=") = none)))

theorem malformedNum_min (tok : String) (h : malformedNum tok = true)
    (hp : hasPre tok "min=" = true) :
    atoi? (trimPre tok "min=") = none ∧ parseFloat? (trimPre tok "min=") = none := by
  simp [malformedNum, hp] at h
  exact h.1

theorem malformedNum_max (tok : String) (h : malformedNum tok = true)
    (hp : hasPre tok "max=" = true) :
    atoi? (trimPre tok "max=") = none ∧ parseFloat? (trimPre tok "max=") = none := by
  simp [malformedNum, hp] at h
  exact h.2

theorem applyMin_malformed (c : SchemaCore) (v : String)
    (h : hasPre v "min=" = true →
      atoi? (trimPre v "min=") = none ∧ parseFloat? (trimPre v "min=") = none) :
    applyMin c v = c := by
  unfold applyMin
  dsimp only
  repeat' split
  all_goals simp_all

theorem applyMax_malformed (c : SchemaCore) (v : String)
    (h : hasPre v "max=" = true →
      atoi? (trimPre v "max=") = none ∧ parseFloat? (trimPre v "max=") = none) :
    applyMax c v = c := by
  unfold applyMax
  dsimp only
  repeat' split
  all_goals simp_all

/-- The bounds (and the node type) survive any token whose numeric
fragments are malformed: the token can still set `format`/`enum` but never
a bound. -/
theorem applyToken_malformed_bounds (c : SchemaCore) (v : String)
    (h : malformedNum v = true) :
    (applyToken c v).minLength = c.minLength ∧ (applyToken c v).maxLength = c.maxLength ∧
    (applyToken c v).minimum = c.minimum ∧ (applyToken c v).maximum = c.maximum ∧
    (applyToken c v).stype = c.stype := by
  unfold applyToken
  rw [applyMin_malformed c v (malformedNum_min v h),
      applyMax_malformed c v (malformedNum_max v h)]
  unfold applyEmail applyOneof
  repeat' split
  all_goals exact ⟨rfl, rfl, rfl, rfl, rfl⟩

theorem foldl_malformed_bounds (toks : List String) (c : SchemaCore)
    (h : ∀ tok ∈ toks, malformedNum tok = true) :
    (toks.foldl applyToken c).minLength = c.minLength ∧
    (toks.foldl applyToken c).maxLength = c.maxLength ∧
    (toks.foldl applyToken c).minimum = c.minimum ∧
    (toks.foldl applyToken c).maximum = c.maximum := by
  induction toks generalizing c with
  | nil => exact ⟨rfl, rfl, rfl, rfl⟩
  | cons tok rest ih =>
      have h0 := applyToken_malformed_bounds c tok (h tok (by simp))
      have hr := ih (applyToken c tok) (fun t ht => h t (by simp [ht]))
      exact ⟨h0.1 ▸ hr.1, h0.2.1 ▸ hr.2.1, h0.2.2.1 ▸ hr.2.2.1, h0.2.2.2.1 ▸ hr.2.2.2⟩

/-- Root core of a derived schema never carries bounds (they are only added
by the validate-tag loop afterwards). -/
theorem genS_root_bounds : ∀ (b : Bool) (t : Typ),
    (genS b t).core.minLength = none ∧ (genS b t).core.maxLength = none ∧
    (genS b t).core.minimum = none ∧ (genS b t).core.maximum = none
  | true, .tPtr e => by simpa [genS] using genS_root_bounds false e
  | false, .tPtr _ => by simp [genS, mkScalar, Schema.core]
  | _, .tString => by simp [genS, mkScalar, Schema.core]
  | _, .tInt => by simp [genS, mkScalar, Schema.core]
  | _, .tFloat => by simp [genS, mkScalar, Schema.core]
  | _, .tBool => by simp [genS, mkScalar, Schema.core]
  | _, .tTime => by simp [genS, Schema.core]
  | _, .tOther => by simp [genS, mkScalar, Schema.core]
  | b, .tSlice e => by simp [genS, Schema.core]
  | b, .tMap e => by simp [genS, Schema.core]
  | b, .tStruct fs => by simp [genS, Schema.core]

/-- C6.  For every field type and annotation whose `min=`/`max=` values all
fail to parse as numbers, the derived field schema carries no bound at all
(none of minLength/maxLength/minimum/maximum is set — absent, not zero),
and derivation still completes normally, producing the node of the same
type (the embedding functions are total Lean functions, mirroring the
source's no-failure tolerant parsing). -/
theorem fieldSchemaOf_core_bounds (tags : Tags) (s : Schema)
    (hb : s.core.minLength = none ∧ s.core.maxLength = none ∧
          s.core.minimum = none ∧ s.core.maximum = none)
    (h : ∀ tok ∈ splitS (tags.validate.getD "") ',', malformedNum tok = true) :
    (fieldSchemaOf tags s).core.minLength = none ∧
    (fieldSchemaOf tags s).core.maxLength = none ∧
    (fieldSchemaOf tags s).core.minimum = none ∧
    (fieldSchemaOf tags s).core.maximum = none ∧
    (fieldSchemaOf tags s).core.stype = s.core.stype := by
  obtain ⟨c, p, i, a⟩ := s
  obtain ⟨hb1, hb2, hb3, hb4⟩ := hb
  unfold fieldSchemaOf
  dsimp only
  split <;> split
  · have hf := foldl_malformed_bounds (splitS (tags.validate.getD "") ',')
      { c with exampleV := some (tags.exampleV.getD "") } h
    have hs := foldl_applyToken_stype (splitS (tags.validate.getD "") ',')
      { c with exampleV := some (tags.exampleV.getD "") }
    exact ⟨hf.1.trans hb1, hf.2.1.trans hb2, hf.2.2.1.trans hb3, hf.2.2.2.trans hb4, hs⟩
  · have hf := foldl_malformed_bounds (splitS (tags.validate.getD "") ',') c h
    have hs := foldl_applyToken_stype (splitS (tags.validate.getD "") ',') c
    exact ⟨hf.1.trans hb1, hf.2.1.trans hb2, hf.2.2.1.trans hb3, hf.2.2.2.trans hb4, hs⟩
  · exact ⟨hb1, hb2, hb3, hb4, rfl⟩
  · exact ⟨hb1, hb2, hb3, hb4, rfl⟩

/-- C6.  For every field type and annotation whose `min=`/`max=` values all
fail to parse as numbers, the derived field schema carries no bound at all
(none of minLength/maxLength/minimum/maximum is set — absent, not zero),
and derivation still completes normally, producing a node of the same type
(the embedding functions are total, mirroring the source's tolerant
never-fail parsing). -/
theorem malformed_bound_dropped (tags : Tags) (ty : Typ)
    (h : ∀ tok ∈ splitS (tags.validate.getD "") ',', malformedNum tok = true) :
    (fieldSchemaOf tags (generateSchema ty)).core.minLength = none ∧
    (fieldSchemaOf tags (generateSchema ty)).core.maxLength = none ∧
    (fieldSchemaOf tags (generateSchema ty)).core.minimum = none ∧
    (fieldSchemaOf tags (generateSchema ty)).core.maximum = none ∧
    (fieldSchemaOf tags (generateSchema ty)).core.stype = (generateSchema ty).core.stype :=
  fieldSchemaOf_core_bounds tags (generateSchema ty)
    (by
      have hb := genS_root_bounds true ty
      exact ⟨hb.1, hb.2.1, hb.2.2.1, hb.2.2.2⟩) h

/-- Witness for C6: a string field with `min=abc` and an empty `max=`
value keeps every bound absent. -/
theorem malformed_bound_dropped_witness :
    (∀ tok ∈ splitS "min=abc,max=" ',', malformedNum tok = true) ∧
    (fieldSchemaOf { validate := some "min=abc,max=" } (generateSchema .tString)).core.minLength = none := by
  refine ⟨by decide, ?_⟩
  exact (malformed_bound_dropped { validate := some "min=abc,max=" } .tString (by decide)).1

/-! ## C9: derivation is pure and idempotent -/

mutual
theorem genSApp_pure : ∀ (st : AppState) (b : Bool) (t : Typ),
    genSApp st b t = (genS b t, st)
  | st, true, .tPtr e => by
      simp [genSApp, genS, genSApp_pure st false e]
  | st, false, .tPtr _ => by simp [genSApp, genS]
  | st, _, .tString => by simp [genSApp, genS]
  | st, _, .tInt => by simp [genSApp, genS]
  | st, _, .tFloat => by simp [genSApp, genS]
  | st, _, .tBool => by simp [genSApp, genS]
  | st, _, .tTime => by simp [genSApp, genS]
  | st, _, .tOther => by simp [genSApp, genS]
  | st, b, .tSlice e => by
      simp [genSApp, genS, genSApp_pure st true e]
  | st, b, .tMap e => by
      simp [genSApp, genS, genSApp_pure st true e]
  | st, b, .tStruct fs => by
      simp [genSApp, genS, genFieldsApp_pure st fs]

theorem genFieldsApp_pure : ∀ (st : AppState) (fs : Fields),
    genFieldsApp st fs = (genFields fs, st)
  | st, .nil => by simp [genFieldsApp, genFields]
  | st, .cons fname tags ty rest => by
      unfold genFieldsApp genFields
      dsimp only
      split
      · exact genFieldsApp_pure st rest
      · simp [genSApp_pure st true ty, genFieldsApp_pure st rest]
end

/-- C9.  Schema derivation is pure and idempotent: run with the
application state threaded through the call tree exactly as the Go method
threads its `*App` receiver, it returns the state unchanged, its result
does not depend on the state (it equals the state-free `generateSchema`),
and deriving the same Shape a second time — from the state the first run
returned — yields a structurally identical SchemaNode. -/
theorem derivation_pure_idempotent (st : AppState) (t : Typ) :
    (genSApp st true t).2 = st ∧
    (genSApp st true t).1 = generateSchema t ∧
    (genSApp ((genSApp st true t).2) true t).1 = (genSApp st true t).1 := by
  have h := genSApp_pure st true t
  refine ⟨by simp [h], by simp [h, generateSchema], ?_⟩
  rw [h]
  simp [genSApp_pure st true t]

/-! ## C8: registration accepts exactly the functions -/

/-- `Except.ok` test for a registration outcome. -/
def regAccepts : Except String (List RouteRec) → Bool
  | .ok _ => true
  | .error _ => false

/-- C8 counterexample: a function with no parameters at all — a callable
whose first argument is not context-like — is accepted by `registerRoute`,
although the claim says such a value is rejected fatally. -/
theorem register_rejection_cex :
    regAccepts (registerRoute [] "GET" "/x" (.fn [] [])) = true ∧
    specAcceptable (.fn [] []) = false := by
  exact ⟨rfl, rfl⟩

/-- C8 amended.  Registration rejects fatally (panics — modelled as the
error outcome) exactly the non-function values, with the panic message of
line 212; every function value is accepted regardless of its parameter
list, so a callable whose first argument is not context-like is accepted
at registration (it can only fail later, at dispatch). -/
theorem register_accepts_iff_func (routes : List RouteRec) (method path : String)
    (h : HandlerVal) :
    regAccepts (registerRoute routes method path h) = h.isFunc ∧
    (h.isFunc = false →
      registerRoute routes method path h = .error "handler must be a function") := by
  cases h with
  | fn ins outs => exact ⟨rfl, by intro hc; cases hc⟩
  | nonFn kind => exact ⟨rfl, fun _ => rfl⟩

/-- Witness for C8 at a non-function handler value. -/
theorem register_accepts_iff_func_witness :
    regAccepts (registerRoute [] "POST" "/users" (.nonFn "int")) = HandlerVal.isFunc (.nonFn "int") ∧
    registerRoute [] "POST" "/users" (.nonFn "int") = .error "handler must be a function" :=
  ⟨(register_accepts_iff_func [] "POST" "/users" (.nonFn "int")).1,
   (register_accepts_iff_func [] "POST" "/users" (.nonFn "int")).2 rfl⟩

/-! ## C3: the failure channel -/

/-- The error-only handler shape of the example application's `deleteTodo`
(and of the README's third documented signature `func(c echo.Context) error`),
returning a 404 `*echo.HTTPError`. -/
def deleteTodoHandler : HandlerFn :=
  fun _ => [.errv (some (.httpErr 404 "todo not found"))]

/-- C3 failing-input evaluation.  A registered handler whose only return
value is the error (README: `func handler(c echo.Context) error`; example
app: `deleteTodo`) returns a non-nil 404 HTTPError, yet the closure answers
status 200 with `{data: err, success: true}`: the error check at line 316
runs only when `len(results) > 1`, so the single error result falls through
to the success branch, where a non-nil error is non-zero.  The claim (and
the repository's own documentation) requires status 404 with
`{error: message, success: false}` here. -/
theorem error_only_handler_eval :
    createEchoHandler deleteTodoHandler none none none
        { method := .delete, pathParams := [("id", "nope")] } =
      (.json 200 { data := some (.vObj (.cons "message" (.vStr "todo not found") .nil)),
                   error := "", success := true }, true) := rfl

/-! ## C7: empty results and the success envelope -/

/-- The invocation reported a failure: its last result slot holds a non-nil
error value. -/
def reportsFailure (results : List ResultVal) : Bool :=
  match results.getLast? with
  | some (.errv (some _)) => true
  | _ => false

theorem checkErr_none_of_noFailure (rs : List ResultVal)
    (h : reportsFailure rs = false) : checkErr rs = none := by
  unfold checkErr
  unfold reportsFailure at h
  cases hL : rs.getLast? with
  | none => simp [hL]
  | some r =>
      cases r with
      | val v => simp [hL]
      | errv e =>
          cases e with
          | none => simp [hL]
          | some ge => rw [hL] at h; simp at h

/-- C7.  For an invocation that reports no failure: a first result equal to
the output shape's zero value (reflect `IsZero`) yields 204 No Content with
no envelope; a non-zero first result yields the operation's declared
success status (200 when the route config carries none) with the
`{data: result, success: true}` envelope. -/
theorem zero_result_no_content (cfg : Option RouteCfg) (r0 : ResultVal)
    (rest : List ResultVal) (h : reportsFailure (r0 :: rest) = false) :
    (r0.isZeroR = true → normalize cfg (r0 :: rest) = .noContent 204) ∧
    (r0.isZeroR = false →
      normalize cfg (r0 :: rest) =
        .json (successStatusOf cfg) { data := some r0.toValue, error := "", success := true }) := by
  have hc := checkErr_none_of_noFailure _ h
  constructor <;> intro hz <;> simp [normalize, hc, hz]

/-- Witness for C7: a zero struct result gives 204; a non-empty string
result gives the declared 201 with the success envelope. -/
theorem zero_result_no_content_witness :
    reportsFailure [ResultVal.val (.vObj .nil), .errv none] = false ∧
    normalize none [ResultVal.val (.vObj .nil), .errv none] = .noContent 204 ∧
    normalize (some { successStatus := 201 }) [ResultVal.val (.vStr "x"), .errv none] =
      .json 201 { data := some (.vStr "x"), error := "", success := true } := by
  refine ⟨rfl, ?_, ?_⟩
  · exact (zero_result_no_content none (.val (.vObj .nil)) [.errv none] rfl).1 rfl
  · exact (zero_result_no_content (some { successStatus := 201 }) (.val (.vStr "x"))
      [.errv none] rfl).2 rfl

/-! ## Non-empty failure messages -/

theorem str_toList_append (s t : String) : (s ++ t).toList = s.toList ++ t.toList := by
  obtain ⟨a⟩ := s
  obtain ⟨b⟩ := t
  rfl

theorem validationErrMsg_ne (f tok : String) : validationErrMsg f tok ≠ "" := by
  unfold validationErrMsg
  apply str_append_ne
  rw [str_toList_append, str_toList_append, str_toList_append]
  simp

theorem validateInst_some_ne : ∀ (fs : Fields) (inst : Inst) (m : String),
    validateInst fs inst = some m → m ≠ ""
  | .nil, inst, m => by
      intro h
      simp [validateInst] at h
  | .cons fname tags ty rest, inst, m => by
      intro h
      unfold validateInst at h
      dsimp only at h
      split at h
      next m0 hm0 =>
        injection h with h'
        subst h'
        split at hm0
        · cases hm0
        · obtain ⟨tok, _, rfl⟩ := Option.map_eq_some'.mp hm0
          exact validationErrMsg_ne _ _
      next hm0 => exact validateInst_some_ne rest inst m h

/-- The field at issue fails some constraint of its ConstraintSet under the
validator's evaluation. -/
def fieldFailsB (e : String × Tags × Typ) (inst : Inst) : Bool :=
  (e.2.1.validate.getD "" != "") &&
  (fieldFailure (inst e.1) (splitS (e.2.1.validate.getD "") ',')).isSome

theorem validateInst_of_exists : ∀ (fs : Fields) (inst : Inst),
    (∃ e ∈ fs.toList, fieldFailsB e inst = true) →
    ∃ m, validateInst fs inst = some m
  | .nil, inst => by simp [Fields.toList]
  | .cons f0 t0 ty0 rest, inst => by
      intro hex
      unfold validateInst
      dsimp only
      split
      next m0 _ => exact ⟨m0, rfl⟩
      next hm0 =>
        apply validateInst_of_exists rest inst
        obtain ⟨e, he, hf⟩ := hex
        simp only [Fields.toList, List.mem_cons] at he
        cases he with
        | inl heq =>
            exfalso
            subst heq
            unfold fieldFailsB at hf
            simp only [bne_iff_ne, ne_eq, Bool.and_eq_true, decide_eq_true_eq,
              Option.isSome_iff_exists] at hf
            obtain ⟨hne, tok, htok⟩ := hf
            split at hm0
            · exact hne (by assumption)
            · rw [Option.map_eq_none'] at hm0
              rw [hm0] at htok
              cases htok
        | inr h' => exact ⟨e, h', hf⟩

theorem bindStage1_error_ne (fs : Fields) (req : Request) (e : String)
    (h : bindStage1 fs req = .error e) : e ≠ "" := by
  unfold bindStage1 at h
  split at h <;> split at h <;>
    first
      | (injection h with h'; exact h' ▸ str_append_ne _ _ (by decide))
      | cases h

theorem bindInput_error_ne (fs : Fields) (req : Request) (e : String)
    (h : bindInput fs req = .error e) : e ≠ "" := by
  unfold bindInput at h
  split at h
  next e1 h1 =>
    injection h with h'
    exact h' ▸ bindStage1_error_ne fs req e1 h1
  next i1 h1 =>
    split at h
    · injection h with h'
      exact h' ▸ str_append_ne _ _ (by decide)
    · cases h

/-! ## C1: validation gates the handler -/

/-- C1.  Binding succeeded and the populated instance fails a constraint in
some field's ConstraintSet: then validation reports a failure, the response
is status 400 with a `success:false` envelope whose error message is
non-empty, and the handler callable is never invoked (the invoked flag of
the embedding is `false`).  And when binding itself fails, the 400 response
is produced from the binding error alone — validation runs only if binding
succeeded — again without invoking the handler. -/
theorem validation_gating :
    (∀ (handler : HandlerFn) (respTy : Option Typ) (cfg : Option RouteCfg)
       (fs : Fields) (req : Request) (inst : Inst),
       bindInput fs req = .ok inst →
       (∃ e ∈ fs.toList, fieldFailsB e inst = true) →
       ∃ msg, validateInst fs inst = some msg ∧ msg ≠ "" ∧
         createEchoHandler handler (some fs) respTy cfg req =
           (.json 400 { data := none, error := "Validation failed: " ++ msg,
                        success := false }, false)) ∧
    (∀ (handler : HandlerFn) (respTy : Option Typ) (cfg : Option RouteCfg)
       (fs : Fields) (req : Request) (e : String),
       bindInput fs req = .error e →
       createEchoHandler handler (some fs) respTy cfg req =
         (.json 400 { data := none, error := e, success := false }, false)) := by
  constructor
  · intro handler respTy cfg fs req inst hbind hex
    obtain ⟨msg, hmsg⟩ := validateInst_of_exists fs inst hex
    exact ⟨msg, hmsg, validateInst_some_ne fs inst msg hmsg,
      by simp [createEchoHandler, hbind, hmsg]⟩
  · intro handler respTy cfg fs req e hb
    simp [createEchoHandler, hb]

/-- The `POST /users`-style input shape of the spec's example scenario:
one required string field. -/
def fsC1 : Fields :=
  .cons "Name" { json := some "name", validate := some "required,min=2" } .tString .nil

def reqC1 : Request := { method := .post, body := some .nil }

def handlerC1 : HandlerFn := fun _ => [.val (.vObj .nil), .errv none]

/-- Witness for C1: an empty JSON body binds fine, the zero instance fails
`required`, and the pipeline answers 400 without invoking the handler. -/
theorem validation_gating_witness :
    bindInput fsC1 reqC1 = .ok (zeroInst fsC1) ∧
    (∃ e ∈ fsC1.toList, fieldFailsB e (zeroInst fsC1) = true) ∧
    ∃ msg, validateInst fsC1 (zeroInst fsC1) = some msg ∧ msg ≠ "" ∧
      createEchoHandler handlerC1 (some fsC1) none none reqC1 =
        (.json 400 { data := none, error := "Validation failed: " ++ msg,
                     success := false }, false) := by
  refine ⟨rfl, by decide, ?_⟩
  exact validation_gating.1 handlerC1 none none fsC1 reqC1 (zeroInst fsC1) rfl (by decide)

/-! ## C2: path variables override body fields -/

theorem bindPathParams_frame : ∀ (fs : Fields) (ps : List (String × String))
    (i inst : Inst), bindPathParams fs ps i = .ok inst →
    ∀ n, n ∉ fs.names → inst n = i n
  | .nil, ps, i, inst => by
      intro h n _
      injection h with h'
      rw [← h']
  | .cons fname tags ty rest, ps, i, inst => by
      intro h n hn
      simp only [Fields.names, List.mem_cons, not_or] at hn
      unfold bindPathParams at h
      split at h
      · exact bindPathParams_frame rest ps i inst h n hn.2
      · split at h
        · cases h
        · have hfr := bindPathParams_frame rest ps (Inst.set i fname _) inst h n hn.2
          rw [hfr]
          simp [Inst.set, hn.1]

theorem bindPathParams_hit : ∀ (fs : Fields) (ps : List (String × String))
    (i inst : Inst) (fname : String) (tags : Tags) (ty : Typ),
    bindPathParams fs ps i = .ok inst →
    (fname, tags, ty) ∈ fs.toList →
    fs.names.Nodup →
    ∀ (pv : String) (v : Value),
      lookupParam ps (bindName tags.param fname) = some pv →
      convertStr ty pv = some v → inst fname = v
  | .nil, ps, i, inst, fname, tags, ty => by
      intro _ hmem
      simp [Fields.toList] at hmem
  | .cons f0 t0 ty0 rest, ps, i, inst, fname, tags, ty => by
      intro h hmem hnd pv v hpv hconv
      simp only [Fields.toList, List.mem_cons] at hmem
      simp only [Fields.names, List.nodup_cons] at hnd
      cases hmem with
      | inl heq =>
          obtain ⟨h1, h2, h3⟩ : fname = f0 ∧ tags = t0 ∧ ty = ty0 := by
            simpa [Prod.ext_iff] using heq
          subst h1
          subst h2
          subst h3
          unfold bindPathParams at h
          split at h
          next hL => rw [hL] at hpv; cases hpv
          next raw hL =>
            have hraw : raw = pv := by
              injection hL.symm.trans hpv
            subst hraw
            split at h
            next hC => rw [hC] at hconv; cases hconv
            next v0 hC =>
              have hv : v0 = v := by
                injection hC.symm.trans hconv
              have hfr := bindPathParams_frame rest ps (Inst.set i fname v0) inst h
                fname hnd.1
              rw [hfr]
              simp [Inst.set, hv]
      | inr hmem' =>
          unfold bindPathParams at h
          split at h
          next hL =>
            exact bindPathParams_hit rest ps i inst fname tags ty h hmem' hnd.2 pv v hpv hconv
          next raw hL =>
            split at h
            next hC => cases h
            next v0 hC =>
              exact bindPathParams_hit rest ps (Inst.set i f0 v0) inst fname tags ty h
                hmem' hnd.2 pv v hpv hconv

/-- C2.  For a body-carrying request: binding first runs `c.Bind` (which
deserializes the body) and then `BindPathParams`, so whenever overall
binding succeeds, the typed instance's value for a field whose binding name
matches a path variable is the converted path-variable value — regardless
of what the body put there. -/
theorem binding_path_precedence (fs : Fields) (req : Request) (inst : Inst)
    (fname : String) (tags : Tags) (ty : Typ) (pv : String) (v : Value)
    ( _hbody : req.method.isRead = false)
    (hbind : bindInput fs req = .ok inst)
    (hmem : (fname, tags, ty) ∈ fs.toList)
    (hnd : fs.names.Nodup)
    (hpv : lookupParam req.pathParams (bindName tags.param fname) = some pv)
    (hconv : convertStr ty pv = some v) :
    inst fname = v := by
  unfold bindInput at hbind
  split at hbind
  next e1 h1 => cases hbind
  next i1 h1 =>
    split at hbind
    next e2 h2 => cases hbind
    next i2 h2 =>
      injection hbind with h'
      subst h'
      exact bindPathParams_hit fs req.pathParams i1 i2 fname tags ty h2 hmem hnd pv v hpv hconv

/-- The update shape of the example app: `PUT /todos/:id` with a body field
whose binding name `id` is also the path variable. -/
def fsC2 : Fields :=
  .cons "ID" { json := some "id", param := some "id" } .tString .nil

def reqC2 : Request :=
  { method := .put, pathParams := [("id", "42")],
    body := some (.cons "id" (.vStr "99") .nil) }

/-- Witness for C2: the body says `"99"`, the path variable says `"42"`;
after binding the instance holds the path value. -/
theorem binding_path_precedence_witness :
    ∃ inst, bindInput fsC2 reqC2 = .ok inst ∧ inst "ID" = .vStr "42" :=
  ⟨_, rfl, binding_path_precedence fsC2 reqC2 _ "ID"
    { json := some "id", param := some "id" } .tString "42" (.vStr "42")
    rfl rfl (by simp [fsC2, Fields.toList]) (by simp [fsC2, Fields.names]) rfl rfl⟩

/-! ## C10: envelope exclusivity -/

theorem normalize_envelope (cfg : Option RouteCfg) (rs : List ResultVal) :
    match normalize cfg rs with
    | .json _ env => (env.success = true → env.error = "") ∧
        (env.success = false → env.data = none)
    | .noContent _ => True := by
  unfold normalize
  cases rs with
  | nil => trivial
  | cons r0 rest =>
      cases hce : checkErr (r0 :: rest) with
      | some ge =>
          cases ge with
          | httpErr code msg => simp [hce]
          | plainErr text => simp [hce]
      | none =>
          cases hz : r0.isZeroR with
          | true => simp [hce, hz]
          | false => simp [hce, hz]

/-- C10 counterexample: an operation failure whose error text is empty
(`errors.New("")` is a legal Go error) produces a `success:false` envelope
whose error message is empty, refuting the claimed non-emptiness for
operation failures. -/
def emptyErrHandler : HandlerFn :=
  fun _ => [.val (.vObj .nil), .errv (some (.plainErr ""))]

theorem envelope_empty_error_cex :
    ∃ env, (createEchoHandler emptyErrHandler none none none { method := .get }).1 =
        .json 500 env ∧ env.success = false ∧ env.error = "" :=
  ⟨_, rfl, rfl, rfl⟩

/-- C10 amended.  Every envelope the pipeline constructs is internally
exclusive — success implies an empty error message, failure implies an
absent data payload — and every response produced without invoking the
handler (exactly the binding and validation failures) is a 400 with
`success:false` and a non-empty error message.  An operation failure
carries the error's own text, which may be empty when the error's message
is empty. -/
theorem envelope_exclusivity :
    (∀ (handler : HandlerFn) (reqFields : Option Fields) (respTy : Option Typ)
       (cfg : Option RouteCfg) (req : Request),
       match (createEchoHandler handler reqFields respTy cfg req).1 with
       | .json _ env => (env.success = true → env.error = "") ∧
           (env.success = false → env.data = none)
       | .noContent _ => True) ∧
    (∀ (handler : HandlerFn) (fs : Fields) (respTy : Option Typ)
       (cfg : Option RouteCfg) (req : Request),
       (createEchoHandler handler (some fs) respTy cfg req).2 = false →
       ∃ env, (createEchoHandler handler (some fs) respTy cfg req).1 = .json 400 env ∧
         env.success = false ∧ env.data = none ∧ env.error ≠ "") := by
  constructor
  · intro handler reqFields respTy cfg req
    simp only [createEchoHandler]
    cases reqFields with
    | none => exact normalize_envelope cfg _
    | some fs =>
        cases hb : bindInput fs req with
        | error e => simp [hb]
        | ok inst =>
            cases hv : validateInst fs inst with
            | some m => simp [hb, hv]
            | none =>
                simp only [hb, hv]
                exact normalize_envelope cfg _
  · intro handler fs respTy cfg req hinv
    simp only [createEchoHandler] at hinv ⊢
    cases hb : bindInput fs req with
    | error e =>
        refine ⟨{ data := none, error := e, success := false }, ?_, rfl, rfl,
          bindInput_error_ne fs req e hb⟩
        simp [hb]
    | ok inst =>
        cases hv : validateInst fs inst with
        | some m =>
            refine ⟨{ data := none, error := "Validation failed: " ++ m, success := false },
              ?_, rfl, rfl, str_append_ne _ _ (by decide)⟩
            simp [hb, hv]
        | none =>
            rw [hb] at hinv
            simp [hv] at hinv

/-- Witness for C10 at the validation-failure input of C1. -/
theorem envelope_exclusivity_witness :
    (createEchoHandler handlerC1 (some fsC1) none none reqC1).2 = false ∧
    ∃ env, (createEchoHandler handlerC1 (some fsC1) none none reqC1).1 = .json 400 env ∧
      env.success = false ∧ env.data = none ∧ env.error ≠ "" :=
  ⟨rfl, envelope_exclusivity.2 handlerC1 fsC1 none none reqC1 rfl⟩

end EchoNext
